import Mathlib

/- Verification of the GetCourseVideoDownloader core (gcpd.py, givereq.py,
utils_config.py): a shallow embedding of the segmented-media downloader and
the quality/provider fallback policy, with theorems checking the
specification's claims against the embedded code. -/

namespace GCVD

/-! ## Python string comparison (code-point lexicographic)

Python compares strings lexicographically by Unicode code point; `sorted`
uses this order.  We embed the comparison on `List Char`. -/

/-- Strict lexicographic comparison of char lists by code point (Python `<`
on strings). -/
def chLt : List Char → List Char → Bool
  | _, [] => false
  | [], _ :: _ => true
  | a :: as, b :: bs =>
    if a.val.toNat < b.val.toNat then true
    else if b.val.toNat < a.val.toNat then false
    else chLt as bs

/-- Non-strict lexicographic comparison of char lists by code point (Python
`<=` on strings, the order used by `sorted`). -/
def chLe : List Char → List Char → Bool
  | [], _ => true
  | _ :: _, [] => false
  | a :: as, b :: bs =>
    if a.val.toNat < b.val.toNat then true
    else if b.val.toNat < a.val.toNat then false
    else chLe as bs

/-- Python `<=` on strings. -/
def strLe (s t : String) : Bool := chLe s.data t.data

theorem chLe_of_chLt {x y : List Char} (h : chLt x y = true) : chLe x y = true := by
  induction x generalizing y with
  | nil => cases y <;> simp [chLe]
  | cons a as ih =>
    cases y with
    | nil => simp [chLt] at h
    | cons b bs =>
      simp only [chLt, chLe] at h ⊢
      by_cases h1 : a.val.toNat < b.val.toNat
      · simp [h1]
      · by_cases h2 : b.val.toNat < a.val.toNat
        · simp [h1, h2] at h
        · simp [h1, h2] at h ⊢
          exact ih h

theorem chLe_total (x y : List Char) : (chLe x y || chLe y x) = true := by
  induction x generalizing y with
  | nil => simp [chLe]
  | cons a as ih =>
    cases y with
    | nil => simp [chLe]
    | cons b bs =>
      simp only [chLe]
      by_cases h1 : a.val.toNat < b.val.toNat
      · simp [h1]
      · by_cases h2 : b.val.toNat < a.val.toNat
        · simp [h1, h2]
        · simp [h1, h2]
          simpa using ih bs

theorem chLe_trans (x y z : List Char) (hxy : chLe x y = true)
    (hyz : chLe y z = true) : chLe x z = true := by
  induction x generalizing y z with
  | nil => cases z <;> simp [chLe]
  | cons a as ih =>
    cases y with
    | nil => simp [chLe] at hxy
    | cons b bs =>
      cases z with
      | nil => simp [chLe] at hyz
      | cons c cs =>
        simp only [chLe] at hxy hyz ⊢
        by_cases hab : a.val.toNat < b.val.toNat
        · by_cases hbc : b.val.toNat < c.val.toNat
          · simp [show a.val.toNat < c.val.toNat by omega]
          · by_cases hcb : c.val.toNat < b.val.toNat
            · simp [hbc, hcb] at hyz
            · simp [show a.val.toNat < c.val.toNat by omega]
        · by_cases hba : b.val.toNat < a.val.toNat
          · simp [hab, hba] at hxy
          · by_cases hbc : b.val.toNat < c.val.toNat
            · simp [show a.val.toNat < c.val.toNat by omega]
            · by_cases hcb : c.val.toNat < b.val.toNat
              · simp [hbc, hcb] at hyz
              · have hac : ¬ a.val.toNat < c.val.toNat := by omega
                have hca : ¬ c.val.toNat < a.val.toNat := by omega
                simp [hab, hba, hac, hca, hbc, hcb] at hxy hyz ⊢
                exact ih bs cs hxy hyz

theorem chLt_append {x y s t : List Char} (h : chLt x y = true)
    (hl : x.length = y.length) : chLt (x ++ s) (y ++ t) = true := by
  induction x generalizing y with
  | nil =>
    cases y with
    | nil => simp [chLt] at h
    | cons b bs => simp at hl
  | cons a as ih =>
    cases y with
    | nil => simp at hl
    | cons b bs =>
      simp only [List.cons_append, chLt] at h ⊢
      by_cases h1 : a.val.toNat < b.val.toNat
      · simp [h1]
      · by_cases h2 : b.val.toNat < a.val.toNat
        · simp [h1, h2] at h
        · simp [h1, h2] at h ⊢
          exact ih h (by simpa using hl)

/-! ## Decimal digits and the zero-padded segment filename

`main_download` names the temporary file of segment `idx` with the Python
format string `f"{idx:05}.ts"`: the decimal representation of `idx`,
left-padded with `'0'` to width 5. -/

/-- Big-endian decimal digit values of `n` (the digits of Python `str(n)`). -/
def decDigits (n : Nat) : List Nat :=
  if _ : n < 10 then [n] else decDigits (n / 10) ++ [n % 10]
termination_by n
decreasing_by exact Nat.div_lt_self (by omega) (by omega)

/-- The character for decimal digit `d`. -/
def digitChar (d : Nat) : Char := Char.ofNat (48 + d)

/-- Left-pad a character list with `'0'` to width `w` (the `0` flag of the
format spec `05`). -/
def padZeros (w : Nat) (cs : List Char) : List Char :=
  List.replicate (w - cs.length) '0' ++ cs

/-- `f"{idx:05}"`: decimal representation of `idx`, zero-padded to width 5. -/
def fmt05 (n : Nat) : String :=
  String.mk (padZeros 5 ((decDigits n).map digitChar))

/-- The temporary segment filename `f"{idx:05}.ts"` used by `main_download`. -/
def segName (idx : Nat) : String := fmt05 idx ++ ".ts"

theorem decDigits_lt {n : Nat} (h : n < 10) : decDigits n = [n] := by
  rw [decDigits]
  simp [h]

theorem decDigits_ge {n : Nat} (h : 10 ≤ n) :
    decDigits n = decDigits (n / 10) ++ [n % 10] := by
  rw [decDigits]
  simp [Nat.not_lt.mpr h]

/-- Width-`w` big-endian decimal digits of `n`, leading zeros included:
the proof-side normal form of `decDigits` plus padding. -/
def natDigitsB : Nat → Nat → List Nat
  | 0, _ => []
  | w + 1, n => natDigitsB w (n / 10) ++ [n % 10]

/-- Digit-level padding, mirror of `padZeros`. -/
def padZerosN (w : Nat) (ds : List Nat) : List Nat :=
  List.replicate (w - ds.length) 0 ++ ds

theorem natDigitsB_length (w n : Nat) : (natDigitsB w n).length = w := by
  induction w generalizing n with
  | zero => rfl
  | succ w ih => simp [natDigitsB, ih]

theorem natDigitsB_zero (w : Nat) : natDigitsB w 0 = List.replicate w 0 := by
  induction w with
  | zero => rfl
  | succ w ih =>
    simp [natDigitsB, ih]
    exact (List.replicate_succ' w 0).symm

theorem natDigitsB_lt_ten {w n : Nat} : ∀ d ∈ natDigitsB w n, d < 10 := by
  induction w generalizing n with
  | zero => simp [natDigitsB]
  | succ w ih =>
    intro d hd
    simp only [natDigitsB, List.mem_append, List.mem_singleton] at hd
    rcases hd with hd | hd
    · exact ih d hd
    · subst hd
      exact Nat.mod_lt _ (by omega)

theorem padZerosN_decDigits {n w : Nat} (hw : 0 < w) (hn : n < 10 ^ w) :
    padZerosN w (decDigits n) = natDigitsB w n := by
  induction n using Nat.strong_induction_on generalizing w with
  | _ n ih =>
    cases w with
    | zero => omega
    | succ w =>
      by_cases h10 : n < 10
      · rw [decDigits_lt h10]
        simp [padZerosN, natDigitsB, Nat.div_eq_of_lt h10, Nat.mod_eq_of_lt h10,
          natDigitsB_zero]
      · push_neg at h10
        rw [decDigits_ge h10]
        have hw1 : 0 < w := by
          by_contra hw0
          have : w = 0 := by omega
          subst this
          simp at hn
          omega
        have hdiv : n / 10 < 10 ^ w := by
          rw [Nat.div_lt_iff_lt_mul (by omega)]
          calc n < 10 ^ (w + 1) := hn
            _ = 10 ^ w * 10 := by ring
        have ihd := ih (n / 10) (Nat.div_lt_self (by omega) (by omega)) hw1 hdiv
        calc padZerosN (w + 1) (decDigits (n / 10) ++ [n % 10])
            = List.replicate (w - (decDigits (n / 10)).length) 0 ++
                (decDigits (n / 10) ++ [n % 10]) := by
              unfold padZerosN
              rw [List.length_append]
              simp [Nat.succ_sub_succ]
          _ = (List.replicate (w - (decDigits (n / 10)).length) 0 ++
                decDigits (n / 10)) ++ [n % 10] := by
              rw [List.append_assoc]
          _ = padZerosN w (decDigits (n / 10)) ++ [n % 10] := rfl
          _ = natDigitsB w (n / 10) ++ [n % 10] := by rw [ihd]
          _ = natDigitsB (w + 1) n := rfl

/-- Numeric lexicographic strict order on digit lists. -/
def lexLtN : List Nat → List Nat → Bool
  | _, [] => false
  | [], _ :: _ => true
  | a :: as, b :: bs =>
    if a < b then true else if b < a then false else lexLtN as bs

theorem lexLtN_irrefl (l : List Nat) : lexLtN l l = false := by
  induction l with
  | nil => rfl
  | cons a as ih => simp [lexLtN, ih]

theorem lexLtN_append_last {xs ys : List Nat} (h : xs.length = ys.length)
    (d e : Nat) :
    lexLtN (xs ++ [d]) (ys ++ [e]) = true ↔
      lexLtN xs ys = true ∨ (xs = ys ∧ d < e) := by
  induction xs generalizing ys with
  | nil =>
    cases ys with
    | nil =>
      by_cases hde : d < e
      · simp [lexLtN, hde]
      · by_cases hed : e < d <;> simp [lexLtN, hde, hed]
    | cons y ys => simp at h
  | cons x xs ih =>
    cases ys with
    | nil => simp at h
    | cons y ys =>
      simp only [List.cons_append, lexLtN]
      by_cases h1 : x < y
      · simp [h1]
      · by_cases h2 : y < x
        · have hne : ¬ (x = y) := by omega
          simp [h1, h2, lexLtN, hne]
        · have hxy : x = y := by omega
          subst hxy
          simp only [h1, h2, if_false, lexLtN, List.append_eq]
          rw [ih (by simpa using h)]
          simp

theorem lexLtN_natDigitsB {w a b : Nat} (ha : a < 10 ^ w) (hb : b < 10 ^ w) :
    (lexLtN (natDigitsB w a) (natDigitsB w b) = true) ↔ a < b := by
  induction w generalizing a b with
  | zero =>
    simp only [pow_zero, Nat.lt_one_iff] at ha hb
    subst ha
    subst hb
    simp [natDigitsB, lexLtN]
  | succ w ih =>
    have ha' : a / 10 < 10 ^ w := by
      rw [Nat.div_lt_iff_lt_mul (by omega)]
      calc a < 10 ^ (w + 1) := ha
        _ = 10 ^ w * 10 := by ring
    have hb' : b / 10 < 10 ^ w := by
      rw [Nat.div_lt_iff_lt_mul (by omega)]
      calc b < 10 ^ (w + 1) := hb
        _ = 10 ^ w * 10 := by ring
    have hinj : natDigitsB w (a / 10) = natDigitsB w (b / 10) ↔ a / 10 = b / 10 := by
      constructor
      · intro he
        by_contra hne
        rcases Nat.lt_or_ge (a / 10) (b / 10) with h | h
        · have h' := (ih ha' hb').mpr h
          rw [he, lexLtN_irrefl] at h'
          simp at h'
        · have h2 : b / 10 < a / 10 := by omega
          have h' := (ih hb' ha').mpr h2
          rw [he, lexLtN_irrefl] at h'
          simp at h'
      · intro he
        rw [he]
    show lexLtN (natDigitsB w (a / 10) ++ [a % 10])
        (natDigitsB w (b / 10) ++ [b % 10]) = true ↔ a < b
    rw [lexLtN_append_last (by simp [natDigitsB_length])]
    rw [ih ha' hb', hinj]
    omega

theorem digitChar_toNat : ∀ d, d < 10 → (digitChar d).val.toNat = 48 + d := by
  decide

theorem chLt_map_digitChar {ds es : List Nat} (hd : ∀ d ∈ ds, d < 10)
    (he : ∀ e ∈ es, e < 10) :
    chLt (ds.map digitChar) (es.map digitChar) = lexLtN ds es := by
  induction ds generalizing es with
  | nil => cases es <;> simp [chLt, lexLtN]
  | cons d ds ih =>
    cases es with
    | nil => simp [chLt, lexLtN]
    | cons e es =>
      have hd0 : d < 10 := hd d (by simp)
      have he0 : e < 10 := he e (by simp)
      simp only [List.map_cons, chLt, lexLtN, digitChar_toNat d hd0,
        digitChar_toNat e he0, Nat.add_lt_add_iff_left]
      by_cases h1 : d < e
      · simp [h1]
      · by_cases h2 : e < d
        · simp [h1, h2]
        · simp only [h1, h2, if_false]
          exact ih (fun x hx => hd x (by simp [hx])) (fun x hx => he x (by simp [hx]))

theorem padZeros_map (w : Nat) (ds : List Nat) :
    padZeros w (ds.map digitChar) = (padZerosN w ds).map digitChar := by
  have h0 : digitChar 0 = '0' := by decide
  simp [padZeros, padZerosN, List.map_append, List.map_replicate, h0]

theorem fmt05_data {n : Nat} (hn : n < 100000) :
    (fmt05 n).data = (natDigitsB 5 n).map digitChar := by
  show padZeros 5 ((decDigits n).map digitChar) = _
  rw [padZeros_map, padZerosN_decDigits (by omega)
    (by rw [show (10:Nat) ^ 5 = 100000 by norm_num]; exact hn)]

theorem data_append (s t : String) : (s ++ t).data = s.data ++ t.data := by
  cases s
  cases t
  rfl

theorem segName_lt {i j : Nat} (hij : i < j) (hj : j < 100000) :
    chLt (segName i).data (segName j).data = true := by
  show chLt (fmt05 i ++ ".ts").data (fmt05 j ++ ".ts").data = true
  rw [data_append, data_append, fmt05_data (by omega), fmt05_data hj]
  apply chLt_append
  · rw [chLt_map_digitChar natDigitsB_lt_ten natDigitsB_lt_ten]
    exact (lexLtN_natDigitsB
      (by rw [show (10:Nat) ^ 5 = 100000 by norm_num]; omega)
      (by rw [show (10:Nat) ^ 5 = 100000 by norm_num]; omega)).mpr hij
  · simp [natDigitsB_length]

theorem segName_le {i j : Nat} (hij : i ≤ j) (hj : j < 100000) :
    strLe (segName i) (segName j) = true := by
  rcases Nat.lt_or_ge i j with h | h
  · exact chLe_of_chLt (segName_lt h hj)
  · have : i = j := by omega
    subst this
    show chLe _ _ = true
    have := chLe_total (segName i).data (segName i).data
    cases hc : chLe (segName i).data (segName i).data
    · rw [hc] at this
      simp at this
    · rfl

theorem segName_inj {i j : Nat} (hi : i < 100000) (hj : j < 100000)
    (h : segName i = segName j) : i = j := by
  by_contra hne
  rcases Nat.lt_or_ge i j with hlt | hge
  · have := segName_lt hlt hj
    rw [h] at this
    have hirr : chLt (segName j).data (segName j).data = false := by
      have : ∀ l : List Char, chLt l l = false := by
        intro l
        induction l with
        | nil => rfl
        | cons a as ih => simp [chLt, ih]
      exact this _
    rw [hirr] at this
    simp at this
  · have hlt : j < i := by omega
    have := segName_lt hlt hi
    rw [h] at this
    have hirr : ∀ l : List Char, chLt l l = false := by
      intro l
      induction l with
      | nil => rfl
      | cons a as ih => simp [chLt, ih]
    rw [hirr] at this
    simp at this

/-! ## The merge step of `main_download` / `_merge_segments`

`main_download` writes segment `idx` to `os.path.join(tmpdir, f"{idx:05}.ts")`
and `_merge_segments` concatenates the files in `sorted(segment_paths)`
order.  The shared `tmpdir` prefix does not affect the relative order of the
paths, so the model sorts the bare filenames. -/

/-- The temporary segment filenames for `K` segments, in manifest (index)
order: the `tmp_ts` list of `main_download`. -/
def segPaths (K : Nat) : List String := (List.range K).map segName

/-- The temporary directory contents after all segment downloads succeeded:
segment `i` (body `B i`) was written to file `segName i`; `order` is the
order in which the concurrent downloads completed. -/
def segFiles (B : Nat → List Nat) (order : List Nat) : List (String × List Nat) :=
  order.map fun i => (segName i, B i)

/-- Read a file of the modelled directory (first matching entry; the merge
step assumes every segment file it opens exists). -/
def readFile (fs : List (String × List Nat)) (p : String) : List Nat :=
  match fs.find? (fun e => e.1 == p) with
  | some e => e.2
  | none => []

/-- `_merge_segments`: open the output once and append the bytes of each
segment file, iterating over `sorted(segment_paths)`. -/
def mergeSegments (fs : List (String × List Nat)) (paths : List String) : List Nat :=
  (paths.mergeSort strLe).flatMap (readFile fs)

/-- The merged intermediate output of a `main_download` run with `K`
segments, bodies `B`, every download succeeding, completing in `order`. -/
def mergeRun (K : Nat) (B : Nat → List Nat) (order : List Nat) : List Nat :=
  mergeSegments (segFiles B order) (segPaths K)

theorem strLe_trans : ∀ a b c : String, strLe a b = true → strLe b c = true →
    strLe a c = true :=
  fun a b c hab hbc => chLe_trans a.data b.data c.data hab hbc

theorem strLe_total : ∀ a b : String, (strLe a b || strLe b a) = true :=
  fun a b => chLe_total a.data b.data

theorem segPaths_sorted {K : Nat} (hK : K ≤ 100000) :
    (segPaths K).Pairwise (fun a b => strLe a b = true) := by
  unfold segPaths
  rw [List.pairwise_map]
  refine (List.pairwise_lt_range K).imp_of_mem ?_
  intro a b ha hb hab
  exact segName_le (by omega) (by have := List.mem_range.mp hb; omega)

theorem segFiles_cons (B : Nat → List Nat) (j : Nat) (rest : List Nat) :
    segFiles B (j :: rest) = (segName j, B j) :: segFiles B rest := rfl

theorem find?_segFiles (B : Nat → List Nat) {order : List Nat} {i : Nat}
    (hi : i ∈ order)
    (hinj : ∀ j ∈ order, segName j = segName i → j = i) :
    (segFiles B order).find? (fun e => e.1 == segName i) =
      some (segName i, B i) := by
  induction order with
  | nil => simp at hi
  | cons j rest ih =>
    rw [segFiles_cons]
    by_cases hji : j = i
    · subst hji
      rw [List.find?_cons_of_pos _ (by simp)]
    · rw [List.find?_cons_of_neg _ ?_]
      · refine ih ?_ ?_
        · rcases List.mem_cons.mp hi with h | h
          · exact absurd h.symm hji
          · exact h
        · exact fun x hx => hinj x (by simp [hx])
      · simp only [beq_iff_eq]
        intro hse
        exact hji (hinj j (by simp) hse)

theorem readFile_segFiles (B : Nat → List Nat) {order : List Nat} {i : Nat}
    (hi : i ∈ order)
    (hinj : ∀ j ∈ order, segName j = segName i → j = i) :
    readFile (segFiles B order) (segName i) = B i := by
  unfold readFile
  rw [find?_segFiles B hi hinj]

theorem flatMap_congr_mem {α β : Type} {l : List α} {f g : α → List β}
    (h : ∀ x ∈ l, f x = g x) : l.flatMap f = l.flatMap g := by
  induction l with
  | nil => rfl
  | cons a as ih =>
    simp only [List.flatMap_cons]
    rw [h a (by simp), ih (fun x hx => h x (by simp [hx]))]

/-- With at most 100000 segments the zero-padded names make the
lexicographic path sort coincide with the index order, so the merged bytes
are the bodies concatenated in manifest order, whatever the completion
order of the downloads was. -/
theorem mergeRun_eq {K : Nat} (hK : K ≤ 100000) (B : Nat → List Nat)
    {order : List Nat} (hperm : order.Perm (List.range K)) :
    mergeRun K B order = (List.range K).flatMap B := by
  unfold mergeRun mergeSegments
  rw [List.mergeSort_of_sorted (segPaths_sorted hK)]
  unfold segPaths
  rw [List.flatMap_map]
  refine flatMap_congr_mem ?_
  intro i hi
  have hiK : i < K := List.mem_range.mp hi
  refine readFile_segFiles B (hperm.mem_iff.mpr hi) ?_
  intro j hj hse
  have hjK : j < K := List.mem_range.mp (hperm.mem_iff.mp hj)
  exact segName_inj (by omega) (by omega) hse

/-! ## Concrete filename computations around the padding width

`f"{idx:05}"` pads to width 5 only; from index 100000 on the name is longer
and the lexicographic order of the names no longer follows the index
order (`"100000.ts" < "10001.ts"` as strings). -/

theorem decDigits_10001 : decDigits 10001 = [1, 0, 0, 0, 1] := by
  rw [decDigits_ge (by omega), show (10001 : Nat) / 10 = 1000 by norm_num,
    show (10001 : Nat) % 10 = 1 by norm_num]
  rw [decDigits_ge (by omega), show (1000 : Nat) / 10 = 100 by norm_num,
    show (1000 : Nat) % 10 = 0 by norm_num]
  rw [decDigits_ge (by omega), show (100 : Nat) / 10 = 10 by norm_num,
    show (100 : Nat) % 10 = 0 by norm_num]
  rw [decDigits_ge (by omega), show (10 : Nat) / 10 = 1 by norm_num,
    show (10 : Nat) % 10 = 0 by norm_num]
  rw [decDigits_lt (by omega)]
  rfl

theorem decDigits_100000 : decDigits 100000 = [1, 0, 0, 0, 0, 0] := by
  rw [decDigits_ge (by omega), show (100000 : Nat) / 10 = 10000 by norm_num,
    show (100000 : Nat) % 10 = 0 by norm_num]
  rw [decDigits_ge (by omega), show (10000 : Nat) / 10 = 1000 by norm_num,
    show (10000 : Nat) % 10 = 0 by norm_num]
  rw [decDigits_ge (by omega), show (1000 : Nat) / 10 = 100 by norm_num,
    show (1000 : Nat) % 10 = 0 by norm_num]
  rw [decDigits_ge (by omega), show (100 : Nat) / 10 = 10 by norm_num,
    show (100 : Nat) % 10 = 0 by norm_num]
  rw [decDigits_ge (by omega), show (10 : Nat) / 10 = 1 by norm_num,
    show (10 : Nat) % 10 = 0 by norm_num]
  rw [decDigits_lt (by omega)]
  rfl

theorem segName_10001 : segName 10001 = "10001.ts" := by
  unfold segName fmt05
  rw [decDigits_10001]
  decide

theorem segName_100000 : segName 100000 = "100000.ts" := by
  unfold segName fmt05
  rw [decDigits_100000]
  decide

theorem segName_length {n : Nat} (hn : n < 100000) :
    (segName n).data.length = 8 := by
  show ((fmt05 n ++ ".ts").data).length = 8
  rw [data_append, fmt05_data hn, List.length_append, List.length_map,
    natDigitsB_length]
  rfl

theorem segName_inj_upto {i j : Nat} (hi : i ≤ 100000) (hj : j ≤ 100000)
    (h : segName i = segName j) : i = j := by
  rcases Nat.lt_or_ge i 100000 with hi' | hi' <;>
    rcases Nat.lt_or_ge j 100000 with hj' | hj'
  · exact segName_inj hi' hj' h
  · exfalso
    have hj100 : j = 100000 := by omega
    subst hj100
    have hlen := congrArg (fun s => s.data.length) h
    rw [segName_100000] at hlen
    simp only [segName_length hi'] at hlen
    exact absurd hlen (by decide)
  · exfalso
    have hi100 : i = 100000 := by omega
    subst hi100
    have hlen := congrArg (fun s => s.data.length) h
    rw [segName_100000] at hlen
    simp only [segName_length hj'] at hlen
    exact absurd hlen (by decide)
  · omega

theorem flatMap_singleton_to_map {α β : Type} (f : α → List β) :
    ∀ (xs ys : List α), (∀ x ∈ xs, (f x).length = 1) →
      (∀ y ∈ ys, (f y).length = 1) → xs.flatMap f = ys.flatMap f →
      xs.map f = ys.map f := by
  intro xs
  induction xs with
  | nil =>
    intro ys _ hys h
    cases ys with
    | nil => rfl
    | cons y ys =>
      exfalso
      simp only [List.flatMap_nil, List.flatMap_cons] at h
      rcases List.append_eq_nil.mp h.symm with ⟨h1, _⟩
      have := hys y (by simp)
      rw [h1] at this
      simp at this
  | cons x xs ih =>
    intro ys hxs hys h
    cases ys with
    | nil =>
      exfalso
      simp only [List.flatMap_cons, List.flatMap_nil] at h
      rcases List.append_eq_nil.mp h with ⟨h1, _⟩
      have := hxs x (by simp)
      rw [h1] at this
      simp at this
    | cons y ys =>
      simp only [List.flatMap_cons] at h
      obtain ⟨a, ha⟩ := List.length_eq_one.mp (hxs x (by simp))
      obtain ⟨b, hb⟩ := List.length_eq_one.mp (hys y (by simp))
      rw [ha, hb] at h
      have hab : a = b ∧ xs.flatMap f = ys.flatMap f := by simpa using h
      rw [List.map_cons, List.map_cons, ha, hb, hab.1]
      rw [ih ys (fun u hu => hxs u (by simp [hu]))
        (fun u hu => hys u (by simp [hu])) hab.2]

theorem map_eq_of_inj {α β : Type} (f : α → β) :
    ∀ (xs ys : List α), xs.map f = ys.map f →
      (∀ x ∈ xs, ∀ y ∈ ys, f x = f y → x = y) → xs = ys := by
  intro xs
  induction xs with
  | nil =>
    intro ys h _
    cases ys with
    | nil => rfl
    | cons => simp at h
  | cons x xs ih =>
    intro ys h hinj
    cases ys with
    | nil => simp at h
    | cons y ys =>
      simp only [List.map_cons] at h
      have h2 : f x = f y ∧ xs.map f = ys.map f := by simpa using h
      have hxy : x = y := hinj x (by simp) y (by simp) h2.1
      subst hxy
      rw [ih ys h2.2 (fun u hu v hv => hinj u (by simp [hu]) v (by simp [hv]))]

theorem flatMap_segPaths_readFile {K : Nat} (B : Nat → List Nat)
    {order : List Nat} (hperm : order.Perm (List.range K))
    (hinj : ∀ i, i < K → ∀ j, j < K → segName j = segName i → j = i) :
    (segPaths K).flatMap (readFile (segFiles B order)) =
      (List.range K).flatMap B := by
  unfold segPaths
  rw [List.flatMap_map]
  refine flatMap_congr_mem ?_
  intro i hi
  have hiK := List.mem_range.mp hi
  refine readFile_segFiles B (hperm.mem_iff.mpr hi) ?_
  intro j hj hse
  have hjK : j < K := List.mem_range.mp (hperm.mem_iff.mp hj)
  exact hinj i hiK j hjK hse

theorem not_pairwise_segPaths_100001 :
    ¬ (segPaths 100001).Pairwise (fun a b => strLe a b = true) := by
  intro hp
  have hlen : (segPaths 100001).length = 100001 := by
    simp [segPaths]
  have h := List.pairwise_iff_getElem.mp hp 10001 100000
    (by rw [hlen]; omega) (by rw [hlen]; omega) (by omega)
  simp only [segPaths, List.getElem_map, List.getElem_range] at h
  rw [segName_10001, segName_100000] at h
  exact absurd h (by decide)

/-! ## Python string utilities used by the playlist parser -/

/-- Python `str.strip` whitespace class. -/
def pySpace (c : Char) : Bool :=
  c == ' ' || c == '\t' || c == '\n' || c == '\r' || c == '\x0b' || c == '\x0c'

/-- Python `str.strip()`. -/
def pyStrip (s : String) : String :=
  String.mk (((s.data.dropWhile pySpace).reverse.dropWhile pySpace).reverse)

/-- Worker for `splitLines`; `cur` holds the current line reversed. -/
def splitLinesCore (cur : List Char) : List Char → List String
  | [] => [String.mk cur.reverse]
  | '\n' :: rest =>
    String.mk cur.reverse ::
      (match rest with
       | [] => []
       | _ => splitLinesCore [] rest)
  | c :: rest => splitLinesCore (c :: cur) rest

/-- Python `str.splitlines()`, modelled for newline-separated text:
`""` has no lines, a trailing newline does not open an extra line. -/
def splitLines (s : String) : List String :=
  match s.data with
  | [] => []
  | cs => splitLinesCore [] cs

/-! ## Manifest classification and resolution (`_parse_main_playlist`,
`_load_second_playlist`, the resolution part of `main_download`) -/

/-- Scan one line (stopping at a newline) for a `.ts` or `.bin` occurrence:
the `.*\.(ts|bin)` part of the classification regex, whose `.` does not
match a newline. -/
def hasSegExtInLine : List Char → Bool
  | '.' :: 't' :: 's' :: _ => true
  | '.' :: 'b' :: 'i' :: 'n' :: _ => true
  | '\n' :: _ => false
  | _ :: rest => hasSegExtInLine rest
  | [] => false

/-- `re.search(r"https?://.*\.(ts|bin)", content)` as a Bool: somewhere in
the text, a scheme occurrence followed on the same line by `.ts`/`.bin`.
(No skipped position can start another scheme occurrence, since the
skipped characters contain no `h`.) -/
def matchSegUrl : List Char → Bool
  | 'h' :: 't' :: 't' :: 'p' :: ':' :: '/' :: '/' :: rest =>
    hasSegExtInLine rest || matchSegUrl rest
  | 'h' :: 't' :: 't' :: 'p' :: 's' :: ':' :: '/' :: '/' :: rest =>
    hasSegExtInLine rest || matchSegUrl rest
  | _ :: rest => matchSegUrl rest
  | [] => false

/-- The comprehension `[line.strip() for line in doc.splitlines() if
line.startswith("http")]`, shared by the flat branch of
`_parse_main_playlist` and by `_load_second_playlist`. -/
def extractHttpLines (doc : String) : List String :=
  ((splitLines doc).filter fun l => "http".data.isPrefixOf l.data).map pyStrip

/-- `[line.strip() for line in content.splitlines() if line.strip()]`. -/
def strippedLines (doc : String) : List String :=
  ((splitLines doc).map pyStrip).filter fun l => !(l == "")

/-- The structured `aiohttp.ClientError`s of the pipeline: the playlist
not found, zero segment URLs extracted, or a failed secondary fetch. -/
inductive GErr where
  | manifestNotFound : GErr
  | noSegments : GErr
  | fetchFailed : GErr
deriving DecidableEq

/-- `_parse_main_playlist`: a manifest matching the segment-URL pattern is
flat and yields its `http` lines; otherwise the last non-empty line must
start with `http` and names the secondary playlist, else the structured
"playlist not found" error is raised. -/
def parseMainPlaylist (content : String) :
    Except GErr (List String × Option String) :=
  if matchSegUrl content.data then
    Except.ok (extractHttpLines content, none)
  else
    match (strippedLines content).getLast? with
    | none => Except.ok ([], none)
    | some tail =>
      if "http".data.isPrefixOf tail.data then Except.ok ([], some tail)
      else Except.error GErr.manifestNotFound

/-- Manifest resolution inside `main_download`: parse, and when a secondary
playlist is named, fetch it and extract its `http` lines
(`_load_second_playlist`); `fetchSecondary` abstracts that fetch. -/
def resolveUrls (content : String)
    (fetchSecondary : String → Except GErr String) : Except GErr (List String) :=
  match parseMainPlaylist content with
  | Except.error e => Except.error e
  | Except.ok (urls, none) => Except.ok urls
  | Except.ok (_, some tail) =>
    match fetchSecondary tail with
    | Except.error e => Except.error e
    | Except.ok doc => Except.ok (extractHttpLines doc)

/-- A `main_download` run: resolve the (stripped) manifest, raise the
structured no-segments error before any segment download when resolution
yields zero URLs, otherwise download every segment (bodies `B`, completion
order `order`) and merge.  The first component is the list of segment URLs
the run fetches: empty whenever an error is raised. -/
def mainDownloadTrace (content : String)
    (fetchSecondary : String → Except GErr String) (B : Nat → List Nat)
    (order : List Nat) : List String × Except GErr (List Nat) :=
  match resolveUrls (pyStrip content) fetchSecondary with
  | Except.error e => ([], Except.error e)
  | Except.ok tsUrls =>
    if tsUrls.isEmpty then ([], Except.error GErr.noSegments)
    else (tsUrls, Except.ok (mergeRun tsUrls.length B order))

/-! ## URL quality rewriting and the resolution fallback
(`modify_url_quality`, `get_quality_list`, `try_download_with_quality`;
`replace_quality` from givereq.py) -/

/-- `QUALITY_LEVELS` from utils_config.py. -/
def QUALITY_LEVELS : List String := ["1080", "720", "480", "360"]

/-- `get_quality_list` from utils_config.py. -/
def get_quality_list (qualitySetting : String) : List String :=
  if qualitySetting = "auto" then QUALITY_LEVELS else [qualitySetting]

/-- `re.sub(r"/(360|480|720|1080)\?", "/" + q + "?", url)`: replace every
resolution-token occurrence, scanning left to right and continuing after
each matched token (the alternatives are literals and cannot overlap). -/
def subQuality (q : List Char) : List Char → List Char
  | '/' :: '3' :: '6' :: '0' :: '?' :: rest => '/' :: (q ++ '?' :: subQuality q rest)
  | '/' :: '4' :: '8' :: '0' :: '?' :: rest => '/' :: (q ++ '?' :: subQuality q rest)
  | '/' :: '7' :: '2' :: '0' :: '?' :: rest => '/' :: (q ++ '?' :: subQuality q rest)
  | '/' :: '1' :: '0' :: '8' :: '0' :: '?' :: rest =>
    '/' :: (q ++ '?' :: subQuality q rest)
  | c :: rest => c :: subQuality q rest
  | [] => []

/-- `re.search(r"/(360|480|720|1080)\?", url)` as a Bool. -/
def hasQualityTok : List Char → Bool
  | '/' :: '3' :: '6' :: '0' :: '?' :: _ => true
  | '/' :: '4' :: '8' :: '0' :: '?' :: _ => true
  | '/' :: '7' :: '2' :: '0' :: '?' :: _ => true
  | '/' :: '1' :: '0' :: '8' :: '0' :: '?' :: _ => true
  | _ :: rest => hasQualityTok rest
  | [] => false

/-- `url.replace("/media/", "/media/" + q + "?")`: Python `str.replace`
replaces every occurrence, scanning left to right, continuing after the
replaced occurrence of the needle. -/
def replaceMedia (q : List Char) : List Char → List Char
  | '/' :: 'm' :: 'e' :: 'd' :: 'i' :: 'a' :: '/' :: rest =>
    '/' :: 'm' :: 'e' :: 'd' :: 'i' :: 'a' :: '/' ::
      (q ++ '?' :: replaceMedia q rest)
  | c :: rest => c :: replaceMedia q rest
  | [] => []

/-- `modify_url_quality` from gcpd.py. -/
def modify_url_quality (url : String) (desired_quality : String) : String :=
  if hasQualityTok url.data then
    String.mk (subQuality desired_quality.data url.data)
  else String.mk (replaceMedia desired_quality.data url.data)

/-- `replace_quality` from givereq.py: the bare `re.sub`, with no
`/media/` fallback branch. -/
def replace_quality (url : String) (target_quality : String) : String :=
  String.mk (subQuality target_quality.data url.data)

/-- The loop of `try_download_with_quality`: for each quality in turn,
rewrite the URL and run the pipeline (`pipeline` abstracts
`main_download`; `false` = it raised, the `except` logs and continues);
stop at the first success.  Returns the attempted qualities in order and
whether some candidate succeeded — on exhaustion the function just prints
and returns, raising nothing. -/
def tryQualities (pipeline : String → Bool) (url : String) :
    List String → List String × Bool
  | [] => ([], false)
  | q :: rest =>
    if pipeline (modify_url_quality url q) then ([q], true)
    else
      let r := tryQualities pipeline url rest
      (q :: r.1, r.2)

/-- `try_download_with_quality` from gcpd.py (the quality setting the
configuration provides is a parameter). -/
def try_download_with_quality (pipeline : String → Bool) (url : String)
    (qualitySetting : String) : List String × Bool :=
  tryQualities pipeline url (get_quality_list qualitySetting)

/-! ## Provider/quality selection among observed manifest URLs
(givereq.py: `_extract_video_id`, `_extract_provider`, `_provider_score`,
`on_request`) -/

/-- Python `needle in s` on char lists. -/
def containsSub (needle : List Char) : List Char → Bool
  | [] => needle.isEmpty
  | c :: rest => needle.isPrefixOf (c :: rest) || containsSub needle rest

/-- The capture `([^/?#]+)/` tried at one position: a maximal non-empty
run of characters outside `/?#`, which the regex then requires to be
followed by `/`. -/
def captureIdAt (cs : List Char) : Option String :=
  let cap := cs.takeWhile fun c => !(c == '/' || c == '?' || c == '#')
  match cs.drop cap.length with
  | '/' :: _ => if cap.isEmpty then none else some (String.mk cap)
  | _ => none

def mediaNeedle : List Char := "/api/playlist/media/".data

/-- `re.search(r"/api/playlist/media/([^/?#]+)/", url)`, leftmost match. -/
def findVideoId : List Char → Option String
  | [] => none
  | c :: rest =>
    match (if mediaNeedle.isPrefixOf (c :: rest) then
             captureIdAt ((c :: rest).drop mediaNeedle.length)
           else none) with
    | some v => some v
    | none => findVideoId rest

/-- `_extract_video_id` from givereq.py: the captured id, or the whole URL
when nothing matches. -/
def _extract_video_id (url : String) : String :=
  (findVideoId url.data).getD url

def cdnNeedle : List Char := "user-cdn=".data

/-- The capture `([^&]+)`: maximal non-empty run up to the next `&`. -/
def captureProvAt (cs : List Char) : Option String :=
  let cap := cs.takeWhile fun c => !(c == '&')
  if cap.isEmpty then none else some (String.mk cap)

/-- `re.search(r"[?&]user-cdn=([^&]+)", url)`, leftmost match. -/
def findProvider : List Char → Option String
  | [] => none
  | c :: rest =>
    match (if (c == '?' || c == '&') && cdnNeedle.isPrefixOf rest then
             captureProvAt (rest.drop cdnNeedle.length)
           else none) with
    | some v => some v
    | none => findProvider rest

/-- `_extract_provider` from givereq.py: the provider, or `""`. -/
def _extract_provider (url : String) : String :=
  (findProvider url.data).getD ""

/-- `_provider_score` from givereq.py: `PREF.get(provider, 1)` with
`PREF = {"cloudflare": 3, "integrosproxy": 2}`. -/
def _provider_score (provider : String) : Nat :=
  if provider = "cloudflare" then 3
  else if provider = "integrosproxy" then 2
  else 1

/-- Lookup in the modelled `best` dict (an association list whose most
recent insertion comes first). -/
def lookupBest (m : List (String × Nat × String)) (k : String) :
    Option (Nat × String) :=
  (m.find? fun e => e.1 == k).map fun e => e.2

/-- Python `str.lower()` for the ASCII range (the quality setting). -/
def pyLowerChar (c : Char) : Char :=
  if 65 ≤ c.val.toNat && c.val.toNat ≤ 90 then Char.ofNat (c.val.toNat + 32)
  else c

/-- `quality.lower()`. -/
def pyLower (s : String) : String := String.mk (s.data.map pyLowerChar)

/-- One `on_request` callback of `process_lesson` (givereq.py): for a
playlist request carrying a CDN tag, store `(score, url)` under the video
id — under "auto" only when some resolution token occurs in the URL (the
first of `1080,720,480,360` found), otherwise with the URL rewritten to
the fixed quality.  The assignment `best[video_id] = ...` overwrites any
previous entry unconditionally. -/
def on_request (quality : String) (best : List (String × Nat × String))
    (url : String) : List (String × Nat × String) :=
  if containsSub "/api/playlist/media/".data url.data &&
      containsSub "user-cdn=".data url.data then
    let video_id := _extract_video_id url
    let provider := _extract_provider url
    let score := _provider_score provider
    if pyLower quality == "auto" then
      match ["1080", "720", "480", "360"].find?
          (fun r => containsSub ("/" ++ r ++ "?").data url.data) with
      | some _ => (video_id, score, url) :: best
      | none => best
    else (video_id, score, replace_quality url quality) :: best
  else best

/-! ## The retry loop of `download_segment` -/

/-- Events of one `download_segment` call: a fetch attempt (with its
index) or the 1-second sleep executed after a failed attempt. -/
inductive SegEv where
  | att : Nat → SegEv
  | sleep1 : SegEv
deriving DecidableEq

/-- The `for _ in range(3)` retry loop of `download_segment`: `f i` tells
whether the `i`-th fetch attempt succeeds (any exception = `false`); a
success returns at once, a failure prints, sleeps 1 and continues. -/
def segLoop (f : Nat → Bool) : Nat → Nat → List SegEv × Bool
  | 0, _ => ([], false)
  | fuel + 1, i =>
    if f i then ([SegEv.att i], true)
    else
      let r := segLoop f fuel (i + 1)
      (SegEv.att i :: SegEv.sleep1 :: r.1, r.2)

/-- `download_segment` inside its semaphore slot: at most 3 attempts; the
result records the event trace and whether any attempt succeeded — the
function itself returns normally either way. -/
def download_segment (f : Nat → Bool) : List SegEv × Bool := segLoop f 3 0

/-! ## The shared concurrency limiter (`asyncio.Semaphore`) -/

/-- Phase of one gathered `download_segment` task: waiting on the
semaphore, holding a slot inside the retry loop at attempt `k`, or
finished with the slot released. -/
inductive TaskPhase where
  | pending : TaskPhase
  | holding : Nat → TaskPhase
  | done : TaskPhase
deriving DecidableEq

def isHolding : TaskPhase → Bool
  | TaskPhase.holding _ => true
  | _ => false

/-- Number of tasks currently holding a semaphore slot — an upper bound on
the fetch attempts in flight, since every attempt runs inside
`async with semaphore`. -/
def inFlight (ts : List TaskPhase) : Nat := ts.countP isHolding

/-- Interleaving semantics of the gathered tasks under
`asyncio.Semaphore(N)`: a pending task enters its retry loop only when a
slot is free; a failed attempt retries while the slot stays held; the
slot is released only when the task finishes (success or exhausted
budget). -/
inductive SemStep (N : Nat) : List TaskPhase → List TaskPhase → Prop where
  | acquire (ts : List TaskPhase) (i : Nat)
      (hi : ts[i]? = some TaskPhase.pending) (hcap : inFlight ts < N) :
      SemStep N ts (ts.set i (TaskPhase.holding 0))
  | retry (ts : List TaskPhase) (i k : Nat)
      (hi : ts[i]? = some (TaskPhase.holding k)) (hk : k + 1 < 3) :
      SemStep N ts (ts.set i (TaskPhase.holding (k + 1)))
  | finish (ts : List TaskPhase) (i k : Nat)
      (hi : ts[i]? = some (TaskPhase.holding k)) :
      SemStep N ts (ts.set i TaskPhase.done)

/-- States reachable by a run with `M` gathered segment tasks and
concurrency bound `N`. -/
inductive SemReach (N M : Nat) : List TaskPhase → Prop where
  | init : SemReach N M (List.replicate M TaskPhase.pending)
  | step {s t : List TaskPhase} : SemReach N M s → SemStep N s t → SemReach N M t

/-! ## `fetch` and `convert_to_mp4_async` -/

/-- An HTTP response: status and the streamed body chunks
(`iter_chunked`). -/
structure Response where
  status : Nat
  chunks : List (List Nat)

/-- `fetch` from gcpd.py over a modelled file system (path ↦ bytes).
`response.raise_for_status()` runs first — aiohttp raises
`ClientResponseError` exactly when the status is 400 or higher — and only
then is `open(dest, "wb")` reached (create or truncate) and the body
streamed chunk by chunk.  When the fetch raises, the destination is never
opened. -/
def fetchRun (resp : Response) (fs : String → Option (List Nat))
    (dest : String) : (String → Option (List Nat)) × Except Unit Unit :=
  if 400 ≤ resp.status then (fs, Except.error ())
  else (fun p => if p = dest then some resp.chunks.flatten else fs p,
    Except.ok ())

/-- `convert_to_mp4_async`: await ffmpeg (exit `code`, stderr `err`,
`produced` = whether it wrote the target file), then: exit code 0 deletes
the merged intermediate and surfaces nothing; otherwise the stderr text is
surfaced and the intermediate kept.  The function never raises. -/
def convert_to_mp4 (code : Nat) (err : String) (produced : Bool)
    (fs : String → Bool) (result_file : String) :
    (String → Bool) × Option String :=
  let mp4_file := result_file ++ ".mp4"
  let fsAfter : String → Bool :=
    fun p => if p = mp4_file then (produced || fs p) else fs p
  if code = 0 then
    (fun p => if p = result_file then false else fsAfter p, none)
  else (fsAfter, some err)

/-! ## Composition lemmas for the URL rewriting scanners -/

/-- `"/media/" in url` as a char-list scanner (used to state when the
`str.replace` of `modify_url_quality` finds an occurrence). -/
def hasMedia : List Char → Bool
  | '/' :: 'm' :: 'e' :: 'd' :: 'i' :: 'a' :: '/' :: _ => true
  | _ :: rest => hasMedia rest
  | [] => false

set_option maxHeartbeats 1600000 in
theorem hasQualityTok_cons_false {x : Char} {l : List Char}
    (h : hasQualityTok (x :: l) = false) : hasQualityTok l = false := by
  rw [hasQualityTok.eq_def] at h
  split at h
  · simp at h
  · simp at h
  · simp at h
  · simp at h
  · rename_i heq
    injection heq with hx hl
    rw [hl]
    exact h
  · rename_i heq
    simp at heq

set_option maxHeartbeats 1600000 in
theorem hasMedia_cons_false {x : Char} {l : List Char}
    (h : hasMedia (x :: l) = false) : hasMedia l = false := by
  rw [hasMedia.eq_def] at h
  split at h
  · simp at h
  · rename_i heq
    injection heq with hx hl
    rw [hl]
    exact h
  · rename_i heq
    simp at heq

set_option maxHeartbeats 1600000 in
theorem subQuality_eq_self (q : List Char) :
    ∀ cs, hasQualityTok cs = false → subQuality q cs = cs := by
  intro cs
  induction cs with
  | nil => intro _; rfl
  | cons c cs' ih =>
    intro h
    rw [subQuality.eq_def]
    split
    · rename_i heq
      rw [heq] at h
      simp [hasQualityTok] at h
    · rename_i heq
      rw [heq] at h
      simp [hasQualityTok] at h
    · rename_i heq
      rw [heq] at h
      simp [hasQualityTok] at h
    · rename_i heq
      rw [heq] at h
      simp [hasQualityTok] at h
    · rename_i heq
      injection heq with hc hrest
      subst hc
      subst hrest
      rw [ih (hasQualityTok_cons_false h)]
    · rename_i heq
      simp at heq

set_option maxHeartbeats 1600000 in
theorem replaceMedia_eq_self (q : List Char) :
    ∀ cs, hasMedia cs = false → replaceMedia q cs = cs := by
  intro cs
  induction cs with
  | nil => intro _; rfl
  | cons c cs' ih =>
    intro h
    rw [replaceMedia.eq_def]
    split
    · rename_i heq
      rw [heq] at h
      simp [hasMedia] at h
    · rename_i heq
      injection heq with hc hrest
      subst hc
      subst hrest
      rw [ih (hasMedia_cons_false h)]
    · rename_i heq
      simp at heq

/-- The four resolution-token digit groups of the rewriting regex. -/
def resTokens : List (List Char) := ["360".data, "480".data, "720".data, "1080".data]

set_option maxHeartbeats 1600000 in
theorem hasQualityTok_append {tok : List Char} (htok : tok ∈ resTokens)
    (b : List Char) :
    ∀ a, hasQualityTok (a ++ '/' :: (tok ++ '?' :: b)) = true := by
  intro a
  induction a with
  | nil =>
    rcases (by simpa [resTokens] using htok : tok = "360".data ∨
        tok = "480".data ∨ tok = "720".data ∨ tok = "1080".data) with
      h | h | h | h <;> subst h <;> rfl
  | cons x a' ih =>
    rw [List.cons_append, hasQualityTok.eq_def]
    split
    · rfl
    · rfl
    · rfl
    · rfl
    · rename_i heq
      injection heq with hx hrest
      rw [← hrest]
      exact ih
    · rename_i heq
      simp at heq

set_option maxHeartbeats 1600000 in
theorem subQuality_append_tok (q : List Char) {tok : List Char}
    (htok : tok ∈ resTokens) (b : List Char) :
    ∀ a, hasQualityTok a = false →
      subQuality q (a ++ '/' :: (tok ++ '?' :: b)) =
        a ++ '/' :: (q ++ '?' :: subQuality q b) := by
  intro a
  induction a with
  | nil =>
    intro _
    rcases (by simpa [resTokens] using htok : tok = "360".data ∨
        tok = "480".data ∨ tok = "720".data ∨ tok = "1080".data) with
      h | h | h | h <;> subst h <;> rfl
  | cons x a' ih =>
    intro ha
    rw [List.cons_append, subQuality.eq_def]
    split
    · rename_i heq
      exfalso
      rcases a' with _ | ⟨c1, _ | ⟨c2, _ | ⟨c3, _ | ⟨c4, a5⟩⟩⟩⟩ <;>
        simp_all [hasQualityTok]
    · rename_i heq
      exfalso
      rcases a' with _ | ⟨c1, _ | ⟨c2, _ | ⟨c3, _ | ⟨c4, a5⟩⟩⟩⟩ <;>
        simp_all [hasQualityTok]
    · rename_i heq
      exfalso
      rcases a' with _ | ⟨c1, _ | ⟨c2, _ | ⟨c3, _ | ⟨c4, a5⟩⟩⟩⟩ <;>
        simp_all [hasQualityTok]
    · rename_i heq
      exfalso
      rcases a' with _ | ⟨c1, _ | ⟨c2, _ | ⟨c3, _ | ⟨c4, _ | ⟨c5, a6⟩⟩⟩⟩⟩ <;>
        simp_all [hasQualityTok]
    · rename_i heq
      injection heq with hx hrest
      subst hx
      rw [← hrest]
      rw [ih (hasQualityTok_cons_false ha), List.cons_append]
    · rename_i heq
      simp at heq

set_option maxHeartbeats 1600000 in
theorem replaceMedia_append (q : List Char) (b : List Char) :
    ∀ a, hasMedia (a ++ ['/']) = false →
      replaceMedia q (a ++ '/' :: 'm' :: 'e' :: 'd' :: 'i' :: 'a' :: '/' :: b) =
        a ++ '/' :: 'm' :: 'e' :: 'd' :: 'i' :: 'a' :: '/' ::
          (q ++ '?' :: replaceMedia q b) := by
  intro a
  induction a with
  | nil => intro _; rfl
  | cons x a' ih =>
    intro ha
    rw [List.cons_append, replaceMedia.eq_def]
    split
    · rename_i heq
      exfalso
      rcases a' with _ | ⟨c1, _ | ⟨c2, _ | ⟨c3, _ | ⟨c4, _ | ⟨c5, _ | ⟨c6, a7⟩⟩⟩⟩⟩⟩ <;>
        simp_all [hasMedia]
    · rename_i heq
      injection heq with hx hrest
      subst hx
      rw [← hrest]
      rw [ih (hasMedia_cons_false (by simpa using ha)), List.cons_append]
    · rename_i heq
      simp at heq

/-! ## Support lemmas for the fallback loop, the limiter and the remux -/

theorem tryQualities_all_fail {pipeline : String → Bool} {url : String} :
    ∀ {qs : List String},
      (∀ q ∈ qs, pipeline (modify_url_quality url q) = false) →
      tryQualities pipeline url qs = (qs, false) := by
  intro qs
  induction qs with
  | nil => intro _; rfl
  | cons q rest ih =>
    intro h
    have hq : pipeline (modify_url_quality url q) = false := h q (by simp)
    simp [tryQualities, hq, ih (fun x hx => h x (by simp [hx]))]

theorem tryQualities_first_success {pipeline : String → Bool} {url : String}
    {s : String} (hs : pipeline (modify_url_quality url s) = true)
    (post : List String) :
    ∀ pre : List String,
      (∀ q ∈ pre, pipeline (modify_url_quality url q) = false) →
      tryQualities pipeline url (pre ++ s :: post) = (pre ++ [s], true) := by
  intro pre
  induction pre with
  | nil =>
    intro _
    simp [tryQualities, hs]
  | cons q rest ih =>
    intro h
    have hq : pipeline (modify_url_quality url q) = false := h q (by simp)
    simp only [List.cons_append]
    simp [tryQualities, hq, ih (fun x hx => h x (by simp [hx]))]

theorem countP_set_eq {α : Type} (p : α → Bool) :
    ∀ (l : List α) (i : Nat) (a b : α), l[i]? = some b →
      (l.set i a).countP p + (if p b then 1 else 0) =
        l.countP p + (if p a then 1 else 0) := by
  intro l
  induction l with
  | nil =>
    intro i a b h
    simp at h
  | cons x xs ih =>
    intro i a b h
    cases i with
    | zero =>
      simp only [List.getElem?_cons_zero, Option.some.injEq] at h
      subst h
      simp only [List.set_cons_zero, List.countP_cons]
      omega
    | succ i =>
      simp only [List.getElem?_cons_succ] at h
      simp only [List.set_cons_succ, List.countP_cons]
      have := ih i a b h
      omega

theorem inFlight_replicate (M : Nat) :
    inFlight (List.replicate M TaskPhase.pending) = 0 := by
  induction M with
  | zero => rfl
  | succ M ih =>
    simp only [List.replicate_succ, inFlight, List.countP_cons] at *
    simp [ih, isHolding]

theorem inFlight_le_of_reach {N M : Nat} {ts : List TaskPhase}
    (h : SemReach N M ts) : inFlight ts ≤ N := by
  induction h with
  | init => simp [inFlight_replicate]
  | step hr hs ih =>
    rename_i s t
    cases hs with
    | acquire i hi hcap =>
      have hc := countP_set_eq isHolding s i (TaskPhase.holding 0)
        TaskPhase.pending hi
      simp [isHolding] at hc
      unfold inFlight at *
      omega
    | retry i k hi hk =>
      have hc := countP_set_eq isHolding s i (TaskPhase.holding (k + 1))
        (TaskPhase.holding k) hi
      simp [isHolding] at hc
      unfold inFlight at *
      omega
    | finish i k hi =>
      have hc := countP_set_eq isHolding s i TaskPhase.done
        (TaskPhase.holding k) hi
      simp [isHolding] at hc
      unfold inFlight at *
      omega

theorem ne_append_mp4 (s : String) : s ≠ s ++ ".mp4" := by
  intro h
  have hlen : s.data.length = (s ++ ".mp4").data.length := by rw [← h]
  rw [data_append, List.length_append] at hlen
  have h4 : ".mp4".data.length = 4 := rfl
  omega

/-- Is this event a fetch attempt? -/
def isAtt : SegEv → Bool
  | SegEv.att _ => true
  | _ => false

/-! ## The claims -/

/-- C1 (amended): for every manifest resolving to K segment URLs with
K ≤ 100000, when every segment download succeeds the merged output
produced before remuxing is exactly the concatenation of the K segment
bodies in manifest order, for every completion order of the concurrent
downloads: segment `i` is written to the zero-padded filename for `i` and
the concatenator writes files in ascending lexicographic order, which
below the padding width coincides with ascending index order. -/
theorem C1_merge_in_manifest_order :
    ∀ (content : String) (fetchSecondary : String → Except GErr String)
      (B : Nat → List Nat) (order : List Nat) (urls : List String)
      (merged : List Nat),
      mainDownloadTrace content fetchSecondary B order =
        (urls, Except.ok merged) →
      urls.length ≤ 100000 →
      order.Perm (List.range urls.length) →
      merged = (List.range urls.length).flatMap B := by
  intro content f B order urls merged htrace hlen hperm
  unfold mainDownloadTrace at htrace
  rcases hres : resolveUrls (pyStrip content) f with e | tsUrls
  · rw [hres] at htrace
    simp at htrace
  · rw [hres] at htrace
    by_cases hemp : tsUrls.isEmpty
    · simp [hemp] at htrace
    · simp [hemp] at htrace
      obtain ⟨h1, h2⟩ := htrace
      subst h1
      rw [← h2]
      exact mergeRun_eq hlen B hperm

/-- Witness for C1: a flat two-segment manifest, downloads completing in
reverse order, merged into the bodies in manifest order. -/
theorem C1_merge_in_manifest_order_witness :
    mainDownloadTrace "http://a/1.ts\nhttp://b/2.ts"
        (fun _ => Except.error GErr.fetchFailed) (fun i => [i]) [1, 0] =
      (["http://a/1.ts", "http://b/2.ts"],
        Except.ok (mergeRun 2 (fun i => [i]) [1, 0])) ∧
    [1, 0].Perm (List.range 2) ∧
    mergeRun 2 (fun i => [i]) [1, 0] =
      (List.range 2).flatMap (fun i => [i]) := by
  refine ⟨rfl, by decide, ?_⟩
  have h := C1_merge_in_manifest_order "http://a/1.ts\nhttp://b/2.ts"
    (fun _ => Except.error GErr.fetchFailed) (fun i => [i]) [1, 0]
    ["http://a/1.ts", "http://b/2.ts"] (mergeRun 2 (fun i => [i]) [1, 0])
    rfl (by decide) (by decide)
  simpa using h

/-- C1 counterexample: with K = 100001 segments the claim as stated fails
even when downloads complete in index order — `f"{idx:05}"` pads to width
5 only, so `"100000.ts"` sorts lexicographically before `"10001.ts"` and
the merge is no longer in manifest order. -/
theorem C1_counterexample :
    mergeRun 100001 (fun i => [i]) (List.range 100001) ≠
      (List.range 100001).flatMap (fun i => [i]) := by
  intro heq
  have hinj : ∀ i, i < 100001 → ∀ j, j < 100001 →
      segName j = segName i → j = i :=
    fun i hi j hj h => segName_inj_upto (by omega) (by omega) h
  have hrd : ∀ i, i < 100001 →
      readFile (segFiles (fun i => [i]) (List.range 100001)) (segName i) =
        [i] := by
    intro i hi
    refine readFile_segFiles _ (by simp [List.mem_range]; omega) ?_
    intro j hj hse
    exact hinj i hi j (by simpa [List.mem_range] using hj) hse
  have hrhs : (segPaths 100001).flatMap
      (readFile (segFiles (fun i => [i]) (List.range 100001))) =
      (List.range 100001).flatMap (fun i => [i]) := by
    refine flatMap_segPaths_readFile _ (List.Perm.refl _) hinj
  have hshape : ∀ p ∈ segPaths 100001, ∃ i, i < 100001 ∧ segName i = p := by
    intro p hp
    simp only [segPaths, List.mem_map, List.mem_range] at hp
    exact hp
  have honeP : ∀ p ∈ segPaths 100001,
      (readFile (segFiles (fun i => [i]) (List.range 100001)) p).length = 1 := by
    intro p hp
    obtain ⟨i, hi, rfl⟩ := hshape p hp
    rw [hrd i hi]
    rfl
  have hmemM : ∀ p ∈ (segPaths 100001).mergeSort strLe, p ∈ segPaths 100001 :=
    fun p hp => (List.mergeSort_perm (segPaths 100001) strLe).mem_iff.mp hp
  have honeM : ∀ p ∈ (segPaths 100001).mergeSort strLe,
      (readFile (segFiles (fun i => [i]) (List.range 100001)) p).length = 1 :=
    fun p hp => honeP p (hmemM p hp)
  unfold mergeRun mergeSegments at heq
  rw [← hrhs] at heq
  have hmap := flatMap_singleton_to_map _ _ _ honeM honeP heq
  have hinj2 : ∀ x ∈ (segPaths 100001).mergeSort strLe,
      ∀ y ∈ segPaths 100001,
      readFile (segFiles (fun i => [i]) (List.range 100001)) x =
        readFile (segFiles (fun i => [i]) (List.range 100001)) y →
      x = y := by
    intro x hx y hy hxy
    obtain ⟨i, hi, rfl⟩ := hshape x (hmemM x hx)
    obtain ⟨j, hj, rfl⟩ := hshape y hy
    rw [hrd i hi, hrd j hj] at hxy
    have hij : i = j := by simpa using hxy
    rw [hij]
  have hMP := map_eq_of_inj _ _ _ hmap hinj2
  have hsorted := List.sorted_mergeSort strLe_trans strLe_total (segPaths 100001)
  rw [hMP] at hsorted
  exact not_pairwise_segPaths_100001 hsorted

/-- C2: the resolution-fallback entry point tries rewritten candidate URLs
in exactly the order `[requested quality]` for a fixed setting or
`[1080, 720, 480, 360]` for `"auto"`; it stops at the first candidate
whose pipeline run completes without raising, attempts no later candidate
after a success, and when every candidate raises it returns normally with
an overall-failure outcome instead of raising. -/
theorem C2_fallback_order (pipeline : String → Bool) (url : String) :
    (∀ qs : String, qs ≠ "auto" → get_quality_list qs = [qs]) ∧
    get_quality_list "auto" = ["1080", "720", "480", "360"] ∧
    (∀ (qset s : String) (pre post : List String),
      get_quality_list qset = pre ++ s :: post →
      (∀ q ∈ pre, pipeline (modify_url_quality url q) = false) →
      pipeline (modify_url_quality url s) = true →
      try_download_with_quality pipeline url qset = (pre ++ [s], true)) ∧
    (∀ qset : String,
      (∀ q ∈ get_quality_list qset,
        pipeline (modify_url_quality url q) = false) →
      try_download_with_quality pipeline url qset =
        (get_quality_list qset, false)) := by
  refine ⟨?_, rfl, ?_, ?_⟩
  · intro qs hqs
    simp [get_quality_list, hqs]
  · intro qset s pre post hsplit hpre hs
    unfold try_download_with_quality
    rw [hsplit]
    exact tryQualities_first_success hs post pre hpre
  · intro qset hall
    unfold try_download_with_quality
    exact tryQualities_all_fail hall

/-- Witness for C2: under `"auto"`, a pipeline succeeding only on the 480p
rewrite is attempted on 1080, 720, 480 and stops there. -/
theorem C2_fallback_order_witness :
    try_download_with_quality (fun u => u == "http://h/media/480?a")
      "http://h/media/720?a" "auto" = (["1080", "720", "480"], true) := by
  have h := (C2_fallback_order (fun u => u == "http://h/media/480?a")
    "http://h/media/720?a").2.2.1 "auto" "480" ["1080", "720"] ["360"]
    (by decide) (by decide) (by decide)
  simpa using h

/-- C3: with concurrency bound N, in no reachable state of a run with M
segment tasks are more than N tasks inside their retry loop (holding a
limiter slot), for every M; and a retry transition keeps the task's slot
held — the slot is acquired before the retry loop and is not released
between attempts. -/
theorem C3_concurrency_bound :
    (∀ (N M : Nat) (ts : List TaskPhase), 1 ≤ N → SemReach N M ts →
      inFlight ts ≤ N) ∧
    (∀ (N : Nat) (ts : List TaskPhase) (i k : Nat),
      ts[i]? = some (TaskPhase.holding k) → k + 1 < 3 →
      SemStep N ts (ts.set i (TaskPhase.holding (k + 1))) ∧
      (ts.set i (TaskPhase.holding (k + 1)))[i]? =
        some (TaskPhase.holding (k + 1)) ∧
      inFlight (ts.set i (TaskPhase.holding (k + 1))) = inFlight ts) := by
  constructor
  · intro N M ts _ h
    exact inFlight_le_of_reach h
  · intro N ts i k hi hk
    obtain ⟨hlen, _⟩ := List.getElem?_eq_some.mp hi
    refine ⟨SemStep.retry ts i k hi hk, List.getElem?_set_self hlen, ?_⟩
    have hc := countP_set_eq isHolding ts i (TaskPhase.holding (k + 1))
      (TaskPhase.holding k) hi
    simp [isHolding] at hc
    unfold inFlight
    omega

/-- Witness for C3: bound 1, two tasks, one acquired — the reachable state
has one slot held, and its first retry keeps it held. -/
theorem C3_concurrency_bound_witness :
    inFlight ((List.replicate 2 TaskPhase.pending).set 0
      (TaskPhase.holding 0)) ≤ 1 ∧
    (([TaskPhase.holding 0].set 0 (TaskPhase.holding 1))[0]? =
        some (TaskPhase.holding 1) ∧
      inFlight ([TaskPhase.holding 0].set 0 (TaskPhase.holding 1)) =
        inFlight [TaskPhase.holding 0]) := by
  constructor
  · exact C3_concurrency_bound.1 1 2 _ (by decide)
      (SemReach.step SemReach.init
        (SemStep.acquire _ 0 (by decide) (by decide)))
  · have h := C3_concurrency_bound.2 1 [TaskPhase.holding 0] 0 0
      (by decide) (by decide)
    exact ⟨h.2.1, h.2.2⟩

/-- C4: `download_segment` attempts the fetch at most 3 times, sleeps one
time unit between consecutive attempts (indeed after every failed one),
returns immediately after the first success with no further attempts, and
when all 3 attempts fail it still returns normally — the segment is
silently dropped, with no exception escaping. -/
theorem C4_retry_loop (f : Nat → Bool) :
    (f 0 = true → download_segment f = ([SegEv.att 0], true)) ∧
    (f 0 = false → f 1 = true →
      download_segment f = ([SegEv.att 0, SegEv.sleep1, SegEv.att 1], true)) ∧
    (f 0 = false → f 1 = false → f 2 = true →
      download_segment f =
        ([SegEv.att 0, SegEv.sleep1, SegEv.att 1, SegEv.sleep1, SegEv.att 2],
          true)) ∧
    (f 0 = false → f 1 = false → f 2 = false →
      download_segment f =
        ([SegEv.att 0, SegEv.sleep1, SegEv.att 1, SegEv.sleep1, SegEv.att 2,
          SegEv.sleep1], false)) ∧
    (download_segment f).1.countP isAtt ≤ 3 := by
  cases h0 : f 0 <;> cases h1 : f 1 <;> cases h2 : f 2 <;>
    simp_all [download_segment, segLoop, isAtt]

/-- Witness for C4: first attempt fails, second succeeds — one sleep
between the two attempts, immediate return after the success. -/
theorem C4_retry_loop_witness :
    download_segment (fun i => i == 1) =
      ([SegEv.att 0, SegEv.sleep1, SegEv.att 1], true) :=
  (C4_retry_loop (fun i => i == 1)).2.1 (by decide) (by decide)

/-- C5: a manifest without the absolute segment-URL pattern whose last
non-empty line does not start with `http` fails with the structured
playlist-not-found error and no segment fetch happens; and whenever
resolution produces zero segment URLs the orchestrator raises the
structured no-segments error before any segment download is attempted. -/
theorem C5_structured_errors :
    (∀ (content tail : String),
      matchSegUrl content.data = false →
      (strippedLines content).getLast? = some tail →
      "http".data.isPrefixOf tail.data = false →
      parseMainPlaylist content = Except.error GErr.manifestNotFound) ∧
    (∀ (content : String) (fetchSecondary : String → Except GErr String)
        (B : Nat → List Nat) (order : List Nat),
      parseMainPlaylist (pyStrip content) =
        Except.error GErr.manifestNotFound →
      mainDownloadTrace content fetchSecondary B order =
        ([], Except.error GErr.manifestNotFound)) ∧
    (∀ (content : String) (fetchSecondary : String → Except GErr String)
        (B : Nat → List Nat) (order : List Nat),
      resolveUrls (pyStrip content) fetchSecondary = Except.ok [] →
      mainDownloadTrace content fetchSecondary B order =
        ([], Except.error GErr.noSegments)) := by
  refine ⟨?_, ?_, ?_⟩
  · intro content tail hm hlast hpre
    unfold parseMainPlaylist
    rw [if_neg (by simp [hm]), hlast]
    simp [hpre]
  · intro content f B o hp
    simp [mainDownloadTrace, resolveUrls, hp]
  · intro content f B o hr
    simp [mainDownloadTrace, hr]

/-- Witness for C5: the two-line manifest `foo`/`bar` rejects with
playlist-not-found and fetches nothing; the empty manifest resolves to
zero URLs and the orchestrator raises before any download. -/
theorem C5_structured_errors_witness :
    parseMainPlaylist "foo\nbar" = Except.error GErr.manifestNotFound ∧
    mainDownloadTrace "foo\nbar" (fun _ => Except.error GErr.fetchFailed)
      (fun i => [i]) [] = ([], Except.error GErr.manifestNotFound) ∧
    mainDownloadTrace "" (fun _ => Except.error GErr.fetchFailed)
      (fun i => [i]) [] = ([], Except.error GErr.noSegments) :=
  ⟨C5_structured_errors.1 "foo\nbar" "bar" (by decide) (by decide) (by decide),
   C5_structured_errors.2.1 "foo\nbar" _ _ _ rfl,
   C5_structured_errors.2.2 "" _ _ _ rfl⟩

/-- C6 (amended): `modify_url_quality` replaces an existing resolution
token path segment in place with the desired quality (rewriting every
token occurrence), and otherwise inserts the desired quality followed by
`?` immediately after each literal `/media/`; in particular
`.../media/720?x=1` with desired `"1080"` yields `.../media/1080?x=1`,
and `.../media/?x=1` (no token) with desired `"480"` yields
`.../media/480??x=1` — the `?` already present survives after the
inserted `480?`. -/
theorem C6_rewrite_rule :
    (∀ (q : String) (a b tok : List Char), tok ∈ resTokens →
      hasQualityTok a = false → hasQualityTok b = false →
      modify_url_quality (String.mk (a ++ '/' :: (tok ++ '?' :: b))) q =
        String.mk (a ++ '/' :: (q.data ++ '?' :: b))) ∧
    (∀ (q : String) (a b : List Char),
      hasQualityTok
        (a ++ '/' :: 'm' :: 'e' :: 'd' :: 'i' :: 'a' :: '/' :: b) = false →
      hasMedia (a ++ ['/']) = false → hasMedia b = false →
      modify_url_quality
        (String.mk (a ++ '/' :: 'm' :: 'e' :: 'd' :: 'i' :: 'a' :: '/' :: b))
        q =
        String.mk (a ++ '/' :: 'm' :: 'e' :: 'd' :: 'i' :: 'a' :: '/' ::
          (q.data ++ '?' :: b))) ∧
    modify_url_quality "https://h/media/720?x=1" "1080" =
      "https://h/media/1080?x=1" ∧
    modify_url_quality "https://h/media/?x=1" "480" =
      "https://h/media/480??x=1" := by
  refine ⟨?_, ?_, by decide, by decide⟩
  · intro q a b tok htok ha hb
    unfold modify_url_quality
    rw [if_pos (show hasQualityTok
        (String.mk (a ++ '/' :: (tok ++ '?' :: b))).data = true from
      hasQualityTok_append htok b a)]
    rw [show (String.mk (a ++ '/' :: (tok ++ '?' :: b))).data =
      a ++ '/' :: (tok ++ '?' :: b) from rfl]
    rw [subQuality_append_tok q.data htok b a ha,
      subQuality_eq_self q.data b hb]
  · intro q a b hno hmed hb
    unfold modify_url_quality
    rw [if_neg (show ¬ hasQualityTok (String.mk
        (a ++ '/' :: 'm' :: 'e' :: 'd' :: 'i' :: 'a' :: '/' :: b)).data = true by
      rw [show (String.mk
        (a ++ '/' :: 'm' :: 'e' :: 'd' :: 'i' :: 'a' :: '/' :: b)).data =
        a ++ '/' :: 'm' :: 'e' :: 'd' :: 'i' :: 'a' :: '/' :: b from rfl, hno]
      simp)]
    rw [show (String.mk
      (a ++ '/' :: 'm' :: 'e' :: 'd' :: 'i' :: 'a' :: '/' :: b)).data =
      a ++ '/' :: 'm' :: 'e' :: 'd' :: 'i' :: 'a' :: '/' :: b from rfl]
    rw [replaceMedia_append q.data b a hmed, replaceMedia_eq_self q.data b hb]

/-- Witness for C6: the general replace branch at `.../media/720?x=1`
with desired 1080, and the general insert branch at `.../media/x=1` with
desired 480. -/
theorem C6_rewrite_rule_witness :
    modify_url_quality (String.mk ("https://h/media".data ++ '/' ::
        ("720".data ++ '?' :: "x=1".data))) "1080" =
      String.mk ("https://h/media".data ++ '/' ::
        ("1080".data ++ '?' :: "x=1".data)) ∧
    modify_url_quality (String.mk ("https://h".data ++ '/' :: 'm' :: 'e' ::
        'd' :: 'i' :: 'a' :: '/' :: "x=1".data)) "480" =
      String.mk ("https://h".data ++ '/' :: 'm' :: 'e' :: 'd' :: 'i' ::
        'a' :: '/' :: ("480".data ++ '?' :: "x=1".data)) :=
  ⟨C6_rewrite_rule.1 "1080" _ _ _ (by decide) (by decide) (by decide),
   C6_rewrite_rule.2.1 "480" _ _ (by decide) (by decide) (by decide)⟩

/-- C6 counterexample: on the tokenless `.../media/?x=1` with desired 480
the code produces `.../media/480??x=1`, not the `.../media/480?x=1` the
claim asserts. -/
theorem C6_counterexample :
    modify_url_quality "https://h/media/?x=1" "480" =
      "https://h/media/480??x=1" ∧
    "https://h/media/480??x=1" ≠ "https://h/media/480?x=1" :=
  ⟨by decide, by decide⟩

/-- C7 (amended): under `"auto"` quality the candidate map keeps, for each
video id, the last qualifying observation — `best[video_id] = (score,
url)` overwrites unconditionally, without comparing provider scores.  With
the unknown-provider URL observed first and the cloudflare one second, the
cloudflare URL is retained; in the opposite order the unknown one is. -/
theorem C7_last_write_wins :
    (∀ (best : List (String × Nat × String)) (url : String),
      containsSub "/api/playlist/media/".data url.data = true →
      containsSub "user-cdn=".data url.data = true →
      (∃ r, ["1080", "720", "480", "360"].find?
        (fun r => containsSub ("/" ++ r ++ "?").data url.data) = some r) →
      lookupBest (on_request "auto" best url) (_extract_video_id url) =
        some (_provider_score (_extract_provider url), url)) ∧
    lookupBest (on_request "auto" (on_request "auto" []
        "https://h/api/playlist/media/abc/1080?user-cdn=someone")
        "https://h/api/playlist/media/abc/720?user-cdn=cloudflare") "abc" =
      some (3, "https://h/api/playlist/media/abc/720?user-cdn=cloudflare") ∧
    lookupBest (on_request "auto" (on_request "auto" []
        "https://h/api/playlist/media/abc/720?user-cdn=cloudflare")
        "https://h/api/playlist/media/abc/1080?user-cdn=someone") "abc" =
      some (1, "https://h/api/playlist/media/abc/1080?user-cdn=someone") := by
  refine ⟨?_, by decide, by decide⟩
  intro best url h1 h2 hfind
  obtain ⟨r, hr⟩ := hfind
  unfold on_request
  rw [h1, h2]
  rw [if_pos (by rfl)]
  rw [if_pos (by decide : (pyLower "auto" == "auto") = true)]
  rw [hr]
  unfold lookupBest
  rw [List.find?_cons_of_pos _ (by simp)]
  rfl

/-- Witness for C7's general clause: a qualifying cloudflare observation
overwrites the existing entry for the same video id. -/
theorem C7_last_write_wins_witness :
    lookupBest (on_request "auto"
        [("abc", 1, "https://h/api/playlist/media/abc/1080?user-cdn=someone")]
        "https://h/api/playlist/media/abc/720?user-cdn=cloudflare")
      (_extract_video_id
        "https://h/api/playlist/media/abc/720?user-cdn=cloudflare") =
      some (_provider_score (_extract_provider
          "https://h/api/playlist/media/abc/720?user-cdn=cloudflare"),
        "https://h/api/playlist/media/abc/720?user-cdn=cloudflare") :=
  C7_last_write_wins.1 _ _ (by decide) (by decide) ⟨"720", by decide⟩

/-- C7 counterexample: with the cloudflare URL (score 3) observed first
and the unknown-provider URL (score 1) second, the retained URL is the
unknown one, not the cloudflare one — refuting "in either observation
order". -/
theorem C7_counterexample :
    lookupBest (on_request "auto" (on_request "auto" []
        "https://h/api/playlist/media/abc/720?user-cdn=cloudflare")
        "https://h/api/playlist/media/abc/1080?user-cdn=someone") "abc" =
      some (1, "https://h/api/playlist/media/abc/1080?user-cdn=someone") ∧
    _extract_provider
      "https://h/api/playlist/media/abc/720?user-cdn=cloudflare" =
      "cloudflare" ∧
    _provider_score "cloudflare" = 3 ∧
    "https://h/api/playlist/media/abc/1080?user-cdn=someone" ≠
      "https://h/api/playlist/media/abc/720?user-cdn=cloudflare" :=
  ⟨by decide, by decide, by decide, by decide⟩

/-- C8 (amended): the two rewriters agree on every URL containing a
resolution token: there `replace_quality` (givereq.py) and
`modify_url_quality` (gcpd.py) return the same rewritten URL.  (On
token-free URLs they differ: the former is the identity, the latter
inserts after `/media/`.) -/
theorem C8_rewriters_agree_on_token (url q : String)
    (h : hasQualityTok url.data = true) :
    replace_quality url q = modify_url_quality url q := by
  simp [replace_quality, modify_url_quality, h]

/-- Witness for C8 on a token-bearing URL. -/
theorem C8_rewriters_agree_on_token_witness :
    replace_quality "https://h/media/720?x=1" "480" =
      modify_url_quality "https://h/media/720?x=1" "480" :=
  C8_rewriters_agree_on_token _ _ (by decide)

/-- C8 counterexample: on the token-free `.../media/?x=1` the rewriters
disagree — `replace_quality` leaves the URL unchanged while
`modify_url_quality` inserts after `/media/` — refuting "for every URL
... the same rewritten URL". -/
theorem C8_counterexample :
    replace_quality "https://h/media/?x=1" "480" ≠
      modify_url_quality "https://h/media/?x=1" "480" := by
  decide

/-- C9: the remux step never raises: on exit code zero (ffmpeg having
produced the target) the merged intermediate is deleted so only the
remuxed target remains and no diagnostics are surfaced; on a non-zero
exit the intermediate is left in place, the tool's stderr is surfaced,
and the function still returns normally. -/
theorem C9_remux_outcomes (code : Nat) (err : String) (produced : Bool)
    (fs : String → Bool) (result_file : String)
    (hmerged : fs result_file = true) :
    (code = 0 → produced = true →
      (convert_to_mp4 code err produced fs result_file).2 = none ∧
      (convert_to_mp4 code err produced fs result_file).1 result_file =
        false ∧
      (convert_to_mp4 code err produced fs result_file).1
        (result_file ++ ".mp4") = true) ∧
    (code ≠ 0 →
      (convert_to_mp4 code err produced fs result_file).2 = some err ∧
      (convert_to_mp4 code err produced fs result_file).1 result_file =
        true) := by
  constructor
  · rintro rfl rfl
    refine ⟨by simp [convert_to_mp4], by simp [convert_to_mp4], ?_⟩
    simp [convert_to_mp4, (ne_append_mp4 result_file).symm]
  · intro hcode
    constructor
    · simp [convert_to_mp4, hcode]
    · simp [convert_to_mp4, hcode, ne_append_mp4 result_file, hmerged]

/-- Witness for C9 at both exit codes. -/
theorem C9_remux_outcomes_witness :
    ((convert_to_mp4 0 "" true (fun _ => true) "m").2 = none ∧
      (convert_to_mp4 0 "" true (fun _ => true) "m").1 "m" = false ∧
      (convert_to_mp4 0 "" true (fun _ => true) "m").1 ("m" ++ ".mp4") =
        true) ∧
    ((convert_to_mp4 1 "boom" false (fun _ => true) "m").2 = some "boom" ∧
      (convert_to_mp4 1 "boom" false (fun _ => true) "m").1 "m" = true) :=
  ⟨(C9_remux_outcomes 0 "" true (fun _ => true) "m" rfl).1 rfl rfl,
   (C9_remux_outcomes 1 "boom" false (fun _ => true) "m" rfl).2
     (by decide)⟩

/-- C10 (amended): `fetch` checks the HTTP status before the destination
is opened for writing: when aiohttp's `raise_for_status` raises (status
400 or higher) the fetcher raises with the destination neither created
nor truncated; when it does not raise, the destination afterwards holds
exactly the streamed body from the start (`"wb"` overwrite, not append),
regardless of prior contents — so a failed ≥400 attempt followed by a
successful retry leaves the full new body. -/
theorem C10_fetch_status_first (resp : Response)
    (fs : String → Option (List Nat)) (dest : String) :
    (400 ≤ resp.status → fetchRun resp fs dest = (fs, Except.error ())) ∧
    (resp.status < 400 →
      (fetchRun resp fs dest).1 dest = some resp.chunks.flatten ∧
      (fetchRun resp fs dest).2 = Except.ok ()) ∧
    (∀ resp2 : Response, 400 ≤ resp.status → resp2.status < 400 →
      (fetchRun resp2 (fetchRun resp fs dest).1 dest).1 dest =
        some resp2.chunks.flatten) := by
  refine ⟨?_, ?_, ?_⟩
  · intro h
    simp [fetchRun, h]
  · intro h
    simp [fetchRun, Nat.not_le.mpr h]
  · intro resp2 h1 h2
    simp [fetchRun, h1, Nat.not_le.mpr h2]

/-- Witness for C10: a 404 leaves the file system untouched and raises; a
200 writes the body from the start. -/
theorem C10_fetch_status_first_witness :
    fetchRun ⟨404, [[1]]⟩ (fun _ => none) "f" =
      ((fun _ => none), Except.error ()) ∧
    ((fetchRun ⟨200, [[7]]⟩ (fun _ => none) "f").1 "f" =
        some ([[7]] : List (List Nat)).flatten ∧
      (fetchRun ⟨200, [[7]]⟩ (fun _ => none) "f").2 = Except.ok ()) :=
  ⟨(C10_fetch_status_first ⟨404, [[1]]⟩ (fun _ => none) "f").1 (by decide),
   (C10_fetch_status_first ⟨200, [[7]]⟩ (fun _ => none) "f").2.1 (by decide)⟩

/-- C10 counterexample: a 304 response is not 2xx, yet aiohttp's
`raise_for_status` does not raise (it raises only at 400 and above), so
`fetch` proceeds to open the destination, creating it — refuting "on a
non-2xx response the fetcher raises without creating the destination". -/
theorem C10_counterexample :
    (304 < 200 ∨ 299 < 304) ∧
    (fetchRun ⟨304, []⟩ (fun _ => none) "f").2 = Except.ok () ∧
    (fetchRun ⟨304, []⟩ (fun _ => none) "f").1 "f" = some [] := by
  refine ⟨by omega, rfl, rfl⟩

end GCVD

